import Mathlib

/-!
# proxychecker: a verification development of `main.go`

The program loads a list of proxy addresses, probes every address through a
bounded pool of goroutines, records status and latency per entry, collects the
entries into `goodProxies` / `badProxies`, and lets the user sort the table.

Modelling conventions:

* Go `string` is `String`; `time.Duration` (int64 nanoseconds) is `Int`;
  slices are `List`; an index out of range (a Go panic) is `none` in the
  methods of `ProxyList` and sets the flag `panicked` in a run.
* Functions of the Go standard library that the program calls (`url.Parse`,
  `strings.ToLower`, `http.Client.Do`, `time.ParseDuration`, `fmt.Sscanf`,
  `sort.Sort`) are parameters of the model.
* The goroutines of the start handler are a step function over an explicit
  state, driven by a schedule (a list of labels chosen by the scheduler). One
  step is one statement; the statement `x = append(x, e)` on a shared slice is
  two steps, the evaluation of `append(x, e)` and the assignment to `x`.
* While the start handler runs, the window may deliver a press of the stop
  button or a click on a column header; these are labels of the schedule too.
-/

namespace ProxyChecker

/-! ## Data model (`main.go` lines 22-33) -/

/-- One row of the table: `type ProxyEntry struct`. -/
structure ProxyEntry where
  Address : String
  /-- The field `Type` of the source (a reserved word here). -/
  Type_ : String
  Latency : Int
  Status : String
  deriving DecidableEq, Repr, Inhabited

/-- The store with its sort directive: `type ProxyList struct`. -/
structure ProxyList where
  entries : List ProxyEntry
  sortCol : Int
  asc : Bool
  deriving DecidableEq, Repr

/-! ## The probe (`checkProxy`, lines 344-386) -/

/-- The value of a parsed proxy endpoint (`*url.URL`); the program only hands
it on to the transport. -/
structure URL where
  raw : String
  deriving DecidableEq, Repr

/-- What the program looks at in an `*http.Response`: the status code and the
result of `ioutil.ReadAll(resp.Body)`. -/
structure Response where
  StatusCode : Int
  Body : Except String (List Nat)

/-- The library and network functions called by `checkProxy`. -/
structure World where
  /-- The function `strings.ToLower`. -/
  toLower : String → String
  /-- The function `url.Parse`. -/
  urlParse : String → Except String URL
  /-- The call `http.NewRequest(method, url, nil)`; the request value is its URL. -/
  newRequest : String → String → Except String String
  /-- The call `client.Do(req)` of a client whose transport goes through the
  given proxy and whose dial and overall timeouts are the given duration. -/
  clientDo : URL → Int → String → Except String Response

/-- The constant `http.StatusOK`. -/
def StatusOK : Int := 200

/-- The fixed probe endpoint of line 362. -/
def probeEndpoint : String := "https://api.ipquery.io/?format=json&filter=location"

/-- The proxy endpoint string `fmt.Sprintf("%s://%s", strings.ToLower(proxyType), proxyAddr)`. -/
def proxyEndpoint (w : World) (proxyAddr proxyType : String) : String :=
  w.toLower proxyType ++ "://" ++ proxyAddr

/-- The function `checkProxy` of lines 344-386. -/
def checkProxy (w : World) (proxyAddr proxyType : String) (timeout : Int) : String :=
  match w.urlParse (proxyEndpoint w proxyAddr proxyType) with
  | .error _ => "Invalid URL"
  | .ok proxyURL =>
    match w.newRequest "GET" probeEndpoint with
    | .error _ => "Failed"
    | .ok req =>
      match w.clientDo proxyURL timeout req with
      | .error _ => "Failed"
      | .ok resp =>
        if resp.StatusCode = StatusOK then
          match resp.Body with
          | .error _ => "Failed"
          | .ok body => if body.length = 0 then "Failed" else "Success"
        else "Failed"

/-- The request through the proxy completes without error, the response status
is 200, and the body is read without error and is not empty. -/
def ProbeSucceeds (w : World) (proxyURL : URL) (timeout : Int) : Prop :=
  ∃ req resp body, w.newRequest "GET" probeEndpoint = .ok req ∧
    w.clientDo proxyURL timeout req = .ok resp ∧
    resp.StatusCode = 200 ∧ resp.Body = .ok body ∧ body ≠ []

/-- A world for concrete evaluation: ASCII lower-casing, an endpoint parser
that rejects strings with a blank, and a network in which exactly the proxy
`http://1.1.1.1:8080` answers 200 with a body, `http://3.3.3.3:80` answers 200
with an empty body, and every other proxy refuses the connection. -/
def demoWorld : World where
  toLower := fun s => ⟨s.toList.map Char.toLower⟩
  urlParse := fun s => if s.toList.contains ' ' then .error "invalid character in host name" else .ok ⟨s⟩
  newRequest := fun _ u => .ok u
  clientDo := fun p _ _ =>
    if p.raw = "http://1.1.1.1:8080" then .ok ⟨200, .ok [123, 125]⟩
    else if p.raw = "http://3.3.3.3:80" then .ok ⟨200, .ok []⟩
    else .error "connection refused"

/-! ## Sorting (`Len`, `Less`, `Swap`, lines 35-68, and the header button, lines 153-162) -/

/-- Go's `<` on strings: lexicographic order on the characters (for UTF-8 the
byte order and the code point order agree). -/
def strLess (a b : String) : Bool := decide (a.toList < b.toList)

/-- The method `Len` of lines 35-37. -/
def ProxyList.Len (pl : ProxyList) : Nat := pl.entries.length

/-- The method `Less` of lines 39-64; `none` is the panic of an index out of range. -/
def ProxyList.Less (pl : ProxyList) (i j : Nat) : Option Bool :=
  if pl.sortCol = 0 then
    (pl.entries[i]?).bind fun a => (pl.entries[j]?).bind fun b =>
      if pl.asc then some (strLess a.Type_ b.Type_) else some (strLess b.Type_ a.Type_)
  else if pl.sortCol = 1 then
    (pl.entries[i]?).bind fun a => (pl.entries[j]?).bind fun b =>
      if pl.asc then some (strLess a.Address b.Address) else some (strLess b.Address a.Address)
  else if pl.sortCol = 2 then
    (pl.entries[i]?).bind fun a => (pl.entries[j]?).bind fun b =>
      if pl.asc then some (decide (a.Latency < b.Latency)) else some (decide (a.Latency > b.Latency))
  else if pl.sortCol = 3 then
    (pl.entries[i]?).bind fun a => (pl.entries[j]?).bind fun b =>
      if pl.asc then some (strLess a.Status b.Status) else some (strLess b.Status a.Status)
  else some false

/-- The method `Swap` of lines 66-68; `none` is the panic of an index out of range. -/
def ProxyList.Swap (pl : ProxyList) (i j : Nat) : Option ProxyList :=
  (pl.entries[i]?).bind fun a => (pl.entries[j]?).bind fun b =>
    some { pl with entries := (pl.entries.set i b).set j a }

/-- A sorting algorithm run on data of length `n`, as `sort.Sort` sees its
argument: it stops, or asks `Less(i, j)` and goes on according to the answer,
or calls `Swap(i, j)` and goes on; the indices are below `n`. -/
inductive SortProg (n : Nat) where
  | done : SortProg n
  | less (i j : Fin n) (yes no : SortProg n) : SortProg n
  | swap (i j : Fin n) (next : SortProg n) : SortProg n

/-- Running a sorting algorithm against the methods of `ProxyList`. -/
def SortProg.run {n : Nat} : SortProg n → ProxyList → Option ProxyList
  | .done, pl => some pl
  | .less i j yes no, pl => (pl.Less i j).bind fun b => if b then yes.run pl else no.run pl
  | .swap i j next, pl => (pl.Swap i j).bind fun pl1 => next.run pl1

/-- The type of implementations of `sort.Sort`: for every length, the calls of
`Less` and `Swap` the library makes. -/
abbrev SortAlg := (n : Nat) → SortProg n

/-- The call `sort.Sort(proxyList)`: one call of `Len`, then the algorithm. -/
def sortSort (alg : SortAlg) (pl : ProxyList) : Option ProxyList :=
  (alg pl.Len).run pl

/-- The function `sort.IsSorted` of the library: no element is `Less` than its
predecessor (`for i := n - 1; i > 0; i-- { if data.Less(i, i-1) { return false } }`). -/
def IsSorted (pl : ProxyList) : Bool :=
  (List.range (pl.Len - 1)).all fun i => decide (pl.Less (i + 1) i = some false)

/-- The inner loop of the library's insertion sort:
`for j := i; j > a && data.Less(j, j-1); j-- { data.Swap(j, j-1) }`, followed by `rest`. -/
def insertInner (n : Nat) (rest : SortProg n) : Nat → SortProg n
  | 0 => rest
  | j + 1 =>
    if h : j + 1 < n then
      .less ⟨j + 1, h⟩ ⟨j, Nat.lt_of_succ_lt h⟩
        (.swap ⟨j + 1, h⟩ ⟨j, Nat.lt_of_succ_lt h⟩ (insertInner n rest j)) rest
    else rest

/-- The outer loop of the library's insertion sort, `for i := a + 1; i < b; i++`,
with `k` iterations left. -/
def insertOuter (n : Nat) : Nat → Nat → SortProg n
  | 0, _ => .done
  | k + 1, i => insertInner n (insertOuter n k (i + 1)) i

/-- The library's `insertionSort(data, 0, n)`, the algorithm `sort.Sort` runs on
short slices. -/
def insertionSort : SortAlg := fun n => insertOuter n (n - 1) 1

/-- The closure of the header button of column `col` (lines 153-162). -/
def headerClick (alg : SortAlg) (pl : ProxyList) (col : Int) : Option ProxyList :=
  sortSort alg
    (if pl.sortCol = col then { pl with asc := !pl.asc }
     else { pl with sortCol := col, asc := true })

/-- The key order of column `col` in the given direction: lexicographic on the
scheme (0), the address (1) and the status (3), numeric on the latency (2). -/
def KeyOrdered (col : Int) (asc : Bool) (a b : ProxyEntry) : Prop :=
  if col = 0 then (if asc then a.Type_ ≤ b.Type_ else b.Type_ ≤ a.Type_)
  else if col = 1 then (if asc then a.Address ≤ b.Address else b.Address ≤ a.Address)
  else if col = 2 then (if asc then a.Latency ≤ b.Latency else b.Latency ≤ a.Latency)
  else (if asc then a.Status ≤ b.Status else b.Status ≤ a.Status)

/-! ## The start handler (lines 244-292) and `parseInt` (lines 388-398) -/

/-- The library functions called by the start handler before the run. -/
structure Lib where
  /-- The function `time.ParseDuration`, in nanoseconds. -/
  parseDuration : String → Except String Int
  /-- The call `fmt.Sscanf(value, "%d", &result)`: the scanned integer, or the error. -/
  sscanfInt : String → Except String Int

/-- The function `parseInt` of lines 388-398. -/
def parseInt (lib : Lib) (value : String) (defaultValue : Int) : Except String Int :=
  if value = "" then .ok defaultValue
  else
    match lib.sscanfInt value with
    | .error err => .error err
    | .ok result => .ok result

/-- Where the goroutine of the start handler stands. -/
inductive MainPc where
  /-- Line 264-267: the head of the `range` loop with the test of `stopChecking`. -/
  | loop
  /-- Line 268: `wg.Add(1)`. -/
  | wgAdd
  /-- Line 269: `sem <- struct{}{}`, which blocks while the channel is full. -/
  | semSend
  /-- Line 270: the `go` statement. -/
  | goStmt
  /-- Line 287: `wg.Wait()`, which blocks until the counter is zero. -/
  | wgWait
  /-- Line 288: `close(sem)`. -/
  | closeSem
  /-- The handler is not running (it has returned, or was never started). -/
  | returned
  deriving DecidableEq, Repr

/-- Where a probe goroutine (lines 270-285) stands. -/
inductive WorkerPc where
  /-- Line 274: `start := time.Now()`. -/
  | begin
  /-- Line 275: `status := checkProxy(entries[i].Address, entries[i].Type, timeout)`. -/
  | probe
  /-- Line 276: `entries[i].Latency = time.Since(start)`. -/
  | setLatency
  /-- Line 277: `entries[i].Status = status`. -/
  | setStatus
  /-- Lines 280/282, right-hand side: `append(goodProxies, entries[i])` or
  `append(badProxies, entries[i])` is evaluated. -/
  | appendRead
  /-- Lines 280/282, assignment: the result is stored in `goodProxies` or `badProxies`. -/
  | appendWrite
  /-- Line 272, deferred: `<-sem`. -/
  | release
  /-- Line 271, deferred: `wg.Done()`. -/
  | wgDone
  /-- The goroutine has ended. -/
  | finished
  deriving DecidableEq, Repr

/-- A probe goroutine: its argument `i`, its position and its local variables. -/
structure Worker where
  i : Nat
  pc : WorkerPc
  start : Int
  status : String
  /-- The value of the `append(...)` expression between its evaluation and the assignment. -/
  appended : List ProxyEntry
  deriving DecidableEq, Repr

/-- The variables of `main` that the handlers share, the text of the two input
fields, and the goroutines of the current run. -/
structure State where
  proxyList : ProxyList
  goodProxies : List ProxyEntry
  badProxies : List ProxyEntry
  stopChecking : Bool
  /-- The text of `threadEntry`. -/
  threadText : String
  /-- The text of `timeoutEntry`. -/
  timeoutText : String
  /-- The local `timeout` of the running handler. -/
  timeout : Int
  /-- The capacity of the channel `sem`. -/
  threads : Nat
  /-- The number of values in the channel `sem`. -/
  sem : Nat
  /-- The counter of the wait group `wg`. -/
  wg : Nat
  /-- The loop variable `i` of line 264. -/
  i : Nat
  /-- The length of `proxyList.entries` when the `range` loop was entered. -/
  n : Nat
  pc : MainPc
  /-- The goroutines started by the `go` statement, in the order they were started. -/
  workers : List Worker
  /-- The reading of the clock. -/
  now : Int
  /-- A goroutine has panicked (index out of range, negative wait group counter). -/
  panicked : Bool
  deriving DecidableEq, Repr

/-- The closure of the start button up to the loop (lines 246-262): the state
it leaves and the error dialog it shows, if any. -/
def startButton (lib : Lib) (s : State) : State × Option String :=
  let s1 := { s with stopChecking := false }
  match lib.parseDuration (s1.timeoutText ++ "s") with
  | .error _ => (s1, some "invalid timeout value")
  | .ok timeout =>
    match parseInt lib s1.threadText 50 with
    | .error _ => (s1, some "invalid thread count")
    | .ok threads =>
      if threads ≤ 0 then (s1, some "invalid thread count")
      else
        ({ s1 with
            timeout := timeout, threads := threads.toNat, sem := 0,
            goodProxies := [], badProxies := [],
            i := 0, n := s1.proxyList.entries.length, pc := .loop, workers := [] },
          none)

/-- The closure of the stop button (lines 290-292). -/
def stopButton (s : State) : State := { s with stopChecking := true }

/-- One step of the handler goroutine (lines 264-288). A blocked statement
leaves the state as it is. -/
def mainStep (s : State) : State :=
  match s.pc with
  | .loop =>
    if s.i < s.n then
      if s.stopChecking then { s with pc := .wgWait } else { s with pc := .wgAdd }
    else { s with pc := .wgWait }
  | .wgAdd => { s with wg := s.wg + 1, pc := .semSend }
  | .semSend => if s.sem < s.threads then { s with sem := s.sem + 1, pc := .goStmt } else s
  | .goStmt =>
    { s with workers := s.workers ++ [⟨s.i, .begin, 0, "", []⟩], i := s.i + 1, pc := .loop }
  | .wgWait => if s.wg = 0 then { s with pc := .closeSem } else s
  | .closeSem => { s with pc := .returned }
  | .returned => s

/-- The assignment to worker number `k`. -/
def setWorker (s : State) (k : Nat) (w : Worker) : State :=
  { s with workers := s.workers.set k w }

/-- The assignment `proxyList.entries[i] = e`; the index is in range where it is used. -/
def setEntry (s : State) (i : Nat) (e : ProxyEntry) : State :=
  { s with proxyList := { s.proxyList with entries := s.proxyList.entries.set i e } }

/-- One step of a probe goroutine (lines 271-285); `k` is its position among
the goroutines and `net` the network as it is at each reading of the clock.
`table.Refresh()` (line 284) touches nothing of the state and is left out. -/
def workerStep (net : Int → World) (s : State) (k : Nat) : State :=
  match s.workers[k]? with
  | none => s
  | some w =>
    match w.pc with
    | .begin => setWorker s k { w with start := s.now, pc := .probe }
    | .probe =>
      match s.proxyList.entries[w.i]? with
      | none => { s with panicked := true }
      | some e =>
        setWorker s k
          { w with status := checkProxy (net s.now) e.Address e.Type_ s.timeout, pc := .setLatency }
    | .setLatency =>
      match s.proxyList.entries[w.i]? with
      | none => { s with panicked := true }
      | some e =>
        setWorker (setEntry s w.i { e with Latency := s.now - w.start }) k
          { w with pc := .setStatus }
    | .setStatus =>
      match s.proxyList.entries[w.i]? with
      | none => { s with panicked := true }
      | some e =>
        setWorker (setEntry s w.i { e with Status := w.status }) k { w with pc := .appendRead }
    | .appendRead =>
      match s.proxyList.entries[w.i]? with
      | none => { s with panicked := true }
      | some e =>
        if w.status = "Success" then
          setWorker s k { w with appended := s.goodProxies ++ [e], pc := .appendWrite }
        else
          setWorker s k { w with appended := s.badProxies ++ [e], pc := .appendWrite }
    | .appendWrite =>
      if w.status = "Success" then
        setWorker { s with goodProxies := w.appended } k { w with pc := .release }
      else
        setWorker { s with badProxies := w.appended } k { w with pc := .release }
    | .release =>
      if 0 < s.sem then setWorker { s with sem := s.sem - 1 } k { w with pc := .wgDone } else s
    | .wgDone =>
      if 0 < s.wg then setWorker { s with wg := s.wg - 1 } k { w with pc := .finished }
      else { s with panicked := true }
    | .finished => s

/-- What the scheduler can pick during a run of the start handler. -/
inductive Step where
  /-- The handler goroutine takes a step. -/
  | main
  /-- The probe goroutine number `k` takes a step. -/
  | worker (k : Nat)
  /-- The clock advances by `d` nanoseconds. -/
  | tick (d : Nat)
  /-- The user presses the stop button. -/
  | stop
  deriving DecidableEq, Repr

/-- What can happen in the window during a run: a step of the run, or a click
on the header of a column, which sorts the store. -/
inductive Event where
  | run (st : Step)
  | header (col : Int)
  deriving DecidableEq, Repr

/-- The effect of one scheduler choice. After a panic nothing happens any more. -/
def step (net : Int → World) (s : State) (st : Step) : State :=
  if s.panicked then s
  else
    match st with
    | .main => mainStep s
    | .worker k => workerStep net s k
    | .tick d => { s with now := s.now + d }
    | .stop => stopButton s

/-- The effect of one event in the window. -/
def event (net : Int → World) (alg : SortAlg) (s : State) (ev : Event) : State :=
  match ev with
  | .run st => step net s st
  | .header col =>
    if s.panicked then s
    else
      match headerClick alg s.proxyList col with
      | none => { s with panicked := true }
      | some pl => { s with proxyList := pl }

/-- The state after a schedule of the run. -/
def exec (net : Int → World) (sched : List Step) (s : State) : State :=
  sched.foldl (step net) s

/-- The state after a sequence of events in the window. -/
def execUI (net : Int → World) (alg : SortAlg) (evs : List Event) (s : State) : State :=
  evs.foldl (event net alg) s

/-- The state of a run: the start handler has been called in the state `s0`
and the scheduler has made the choices `sched`. -/
def runFrom (lib : Lib) (net : Int → World) (sched : List Step) (s0 : State) : State :=
  exec net sched (startButton lib s0).1

/-- The line 235 of the load handler: the entry made for one address. -/
def freshEntry (proxyType line : String) : ProxyEntry :=
  { Address := line, Type_ := proxyType, Latency := 0, Status := "Pending" }

/-- The state of the window after the load handler (lines 223-241) has read
the given non-blank, trimmed lines with the given selected proxy type, with
the given texts in the two input fields, before any run. -/
def loaded (proxyType : String) (lines : List String) (threadText timeoutText : String) :
    State :=
  { proxyList := ⟨lines.map (freshEntry proxyType), 1, true⟩,
    goodProxies := [], badProxies := [], stopChecking := false,
    threadText := threadText, timeoutText := timeoutText,
    timeout := 0, threads := 0, sem := 0, wg := 0, i := 0, n := 0,
    pc := .returned, workers := [], now := 0, panicked := false }

/-- A probe goroutine holds a permit from its start until its `<-sem`. -/
def Worker.holdsPermit (w : Worker) : Bool :=
  match w.pc with
  | .wgDone => false
  | .finished => false
  | _ => true

/-- The number of probes that were let in and have not yet given back their permit. -/
def inFlight (s : State) : Nat := s.workers.countP Worker.holdsPermit

/-- The body of the goroutine (lines 274-284) is being executed: it has not yet
reached its deferred calls. -/
def Worker.inBody (w : Worker) : Bool :=
  match w.pc with
  | .release => false
  | .wgDone => false
  | .finished => false
  | _ => true

/-- The number of probes that are being executed. -/
def executing (s : State) : Nat := s.workers.countP Worker.inBody

/-- All probe goroutines have ended and the handler has returned. -/
def settled (s : State) : Bool :=
  decide (s.pc = .returned) && s.workers.all fun w => decide (w.pc = .finished)

/-- The status of an entry is terminal: it is no longer `Pending`. -/
def terminal (e : ProxyEntry) : Bool := decide (e.Status ≠ "Pending")

/-- An entry is untouched: `Pending` with zero latency. -/
def untouched (e : ProxyEntry) : Bool := decide (e.Status = "Pending") && decide (e.Latency = 0)

/-- Decimal digits to a number, or `none` when a character is not a digit. -/
def digitsValue : List Char → Nat → Option Nat
  | [], acc => some acc
  | c :: cs, acc => if c.isDigit then digitsValue cs (acc * 10 + (c.toNat - 48)) else none

/-- A signed run of decimal digits: the sign, then at least one digit. -/
def signedDecimal (cs : List Char) : Option Int :=
  match cs with
  | [] => none
  | '-' :: ds => if ds = [] then none else (digitsValue ds 0).map fun v => - (v : Int)
  | '+' :: ds => if ds = [] then none else (digitsValue ds 0).map fun v => (v : Int)
  | ds => (digitsValue ds 0).map fun v => (v : Int)

/-- A small instance of `Lib` for concrete evaluation. It agrees with the Go
library on the texts the examples use: a signed decimal number scans to that
number, the empty text and a text without a digit are scan errors, and a
signed decimal number followed by `s` is that number of seconds. It does not
cover the rest of the library (blanks and trailing text in `fmt.Sscanf`,
fractions and the other units in `time.ParseDuration`): such texts are
reported as errors here. -/
def refLib : Lib where
  parseDuration := fun t =>
    match t.toList.reverse with
    | 's' :: rest =>
      match signedDecimal rest.reverse with
      | some v => .ok (v * 1000000000)
      | none => .error ("time: invalid duration " ++ t)
    | _ => .error ("time: invalid duration " ++ t)
  sscanfInt := fun t =>
    match signedDecimal t.toList with
    | some v => .ok v
    | none => if t = "" then .error "unexpected EOF" else .error "expected integer"

/-! ## Concrete runs -/

/-- The network of the examples at every time. -/
def demoNet : Int → World := fun _ => demoWorld

/-- The handler lets one record in: loop head, `wg.Add`, send, `go`. -/
def letIn : List Step := [.main, .main, .main, .main]

/-- A probe goroutine runs from its start to the evaluation of `append`. -/
def upToAppend (k : Nat) : List Step :=
  [.worker k, .worker k, .worker k, .worker k, .worker k]

/-- A probe goroutine stores the partition and ends: assignment, `<-sem`, `wg.Done()`. -/
def storeAndEnd (k : Nat) : List Step := [.worker k, .worker k, .worker k]

/-- The handler leaves the loop, passes `wg.Wait()`, closes the channel and returns. -/
def wrapUp : List Step := [.main, .main, .main]

/-- Two proxies that both refuse the connection, two threads, five seconds. -/
def raceStore : State := loaded "HTTP" ["2.2.2.2:3128", "4.4.4.4:80"] "2" "5"

/-- Both probes are let in, both evaluate `append(badProxies, ...)` before
either stores its result, then both store and end, and the handler returns. -/
def raceSchedule : List Step :=
  letIn ++ letIn ++ upToAppend 0 ++ upToAppend 1 ++ storeAndEnd 0 ++ storeAndEnd 1 ++ wrapUp

/-- A working proxy and a dead one in load order, one thread, five seconds. -/
def sortStore : State := loaded "HTTP" ["1.1.1.1:8080", "9.9.9.9:1"] "1" "5"

/-- The first probe is let in and gets its answer; the user clicks the header
of the address column; the probe records its outcome and ends; the second
probe runs; the handler returns. -/
def sortEvents : List Event :=
  (letIn ++ [Step.worker 0, Step.worker 0]).map Event.run ++ [Event.header 1] ++
  ([Step.worker 0, Step.worker 0, Step.worker 0] ++ storeAndEnd 0 ++ letIn ++ upToAppend 1 ++
    storeAndEnd 1 ++ wrapUp).map Event.run

/-- Three records, two threads; the stop button is pressed after the first
record was let in, the probe finishes, and the handler returns. -/
def stopStore : State := loaded "HTTP" ["1.1.1.1:8080", "bad addr", "2.2.2.2:3128"] "2" "5"

/-- The schedule of the stopped run. -/
def stopSchedule : List Step :=
  letIn ++ [.stop, .worker 0, .tick 7, .worker 0, .worker 0, .worker 0, .worker 0] ++
    storeAndEnd 0 ++ wrapUp

/-- A working proxy and a dead one in load order, one thread, five seconds. -/
def cancelStore : State := loaded "HTTP" ["1.1.1.1:8080", "9.9.9.9:1"] "1" "5"

/-- The first record is let in and the stop button is pressed. The probe starts,
seven nanoseconds pass, it gets its answer and writes the latency at index 0;
the user clicks the header of the address column; the probe writes the status
at index 0, appends that entry and ends; the handler sees the stop flag at the
loop head, waits, and returns. -/
def cancelSortEvents : List Event :=
  (letIn ++ [Step.stop, Step.worker 0, Step.tick 7, Step.worker 0, Step.worker 0]).map Event.run
    ++ [Event.header 1] ++
  ([Step.worker 0, Step.worker 0] ++ storeAndEnd 0 ++ wrapUp).map Event.run

/-! ## Invariants -/

/-- Positions `k` and `k+1` of `l` are in key order. -/
def AdjOrdered (col : Int) (asc : Bool) (l : List ProxyEntry) (k : Nat) : Prop :=
  ∀ a b, l[k]? = some a → l[k + 1]? = some b → KeyOrdered col asc a b

/-- The permits of the semaphore are held by the probes in flight and, between
the send and the `go` statement, by the handler; they never exceed the capacity. -/
def SemInv (s : State) : Prop :=
  s.sem = inFlight s + (if s.pc = .goStmt then 1 else 0) ∧ s.sem ≤ s.threads

/-- The entry `p` is a copy of a record at one of the first `K` positions of the
loaded store `E0`: same address, same type. -/
def Launched (E0 : List ProxyEntry) (K : Nat) (p : ProxyEntry) : Prop :=
  ∃ j e0, j < K ∧ E0[j]? = some e0 ∧ p.Address = e0.Address ∧ p.Type_ = e0.Type_

/-- What holds of a run over the store `E0` when nothing but the run touches the
store: the goroutines are those of the first positions, the positions beyond
them hold what was loaded, and the partitions hold copies of records let in. -/
structure RunInv (E0 : List ProxyEntry) (s : State) : Prop where
  len : s.proxyList.entries.length = E0.length
  n_eq : s.n = E0.length
  wlen : s.workers.length = s.i
  widx : ∀ (k : Nat) (w : Worker), s.workers[k]? = some w → w.i = k
  bound : s.i ≤ E0.length
  inLoop : (s.pc = .wgAdd ∨ s.pc = .semSend ∨ s.pc = .goStmt) → s.i < E0.length
  beyond : ∀ j : Nat, s.workers.length ≤ j → s.proxyList.entries[j]? = E0[j]?
  same : ∀ (j : Nat) (e : ProxyEntry), s.proxyList.entries[j]? = some e →
    ∃ e0, E0[j]? = some e0 ∧ e.Address = e0.Address ∧ e.Type_ = e0.Type_
  parts : ∀ p : ProxyEntry, p ∈ s.goodProxies ∨ p ∈ s.badProxies → Launched E0 s.workers.length p
  apps : ∀ w ∈ s.workers, ∀ p ∈ w.appended, Launched E0 s.workers.length p

/-! ## Theorems: the probe -/

/-- C1: `checkProxy` returns the invalid-address status when the proxy endpoint
does not parse; when it parses, the result is `Success` exactly when the
request completes, the status code is 200 and the body is read and non-empty,
and it is `Failed` in every other case. -/
theorem checkProxy_classification (w : World) (addr scheme : String) (timeout : Int) :
    (∀ e, w.urlParse (proxyEndpoint w addr scheme) = .error e →
        checkProxy w addr scheme timeout = "Invalid URL") ∧
    (∀ u, w.urlParse (proxyEndpoint w addr scheme) = .ok u →
        (checkProxy w addr scheme timeout = "Success" ↔ ProbeSucceeds w u timeout) ∧
        (¬ ProbeSucceeds w u timeout → checkProxy w addr scheme timeout = "Failed")) := by
  unfold ProbeSucceeds
  refine ⟨fun e he => by simp [checkProxy, he], fun u hu => ?_⟩
  simp only [checkProxy, hu, StatusOK]
  cases hreq : w.newRequest "GET" probeEndpoint with
  | error e => simp
  | ok req =>
    cases hdo : w.clientDo u timeout req with
    | error e => simp [hdo]
    | ok resp =>
      by_cases hc : resp.StatusCode = 200
      · cases hb : resp.Body with
        | error e => simp [hdo, hc, hb]
        | ok body =>
          cases body with
          | nil => simp [hdo, hc, hb]
          | cons b bs => simp [hdo, hc, hb]
      · simp [hdo, hc]

/-! ## Theorems: sorting -/

theorem set_set_perm {α : Type} [DecidableEq α] (l : List α) (i j : Nat)
    (hi : i < l.length) (hj : j < l.length) :
    ((l.set i l[j]).set j l[i]).Perm l := by
  rw [List.perm_iff_count]
  intro x
  have hj2 : j < (l.set i l[j]).length := by simpa using hj
  have hget : (l.set i l[j])[j] = l[j] := by
    by_cases hij : i = j
    · subst hij; simp
    · simp [List.getElem_set_ne hij]
  rw [List.count_set _ _ _ _ hj2, List.count_set _ _ _ _ hi, hget]
  have h1 : (if (l[i] == x) = true then 1 else 0) ≤ l.count x := by
    split
    · rename_i h
      have hx : l[i] = x := by simpa using h
      have : x ∈ l := hx ▸ List.getElem_mem hi
      exact List.count_pos_iff.mpr this
    · omega
  generalize (if (l[i] == x) = true then 1 else 0) = a at h1 ⊢
  generalize (if (l[j] == x) = true then 1 else 0) = b
  omega

theorem Swap_spec (pl : ProxyList) (i j : Nat) (hi : i < pl.Len) (hj : j < pl.Len) :
    ∃ pl1, pl.Swap i j = some pl1 ∧ pl1.entries.Perm pl.entries ∧
      pl1.sortCol = pl.sortCol ∧ pl1.asc = pl.asc := by
  unfold ProxyList.Len at hi hj
  refine ⟨{ pl with entries := (pl.entries.set i pl.entries[j]).set j pl.entries[i] }, ?_, ?_, rfl, rfl⟩
  · simp [ProxyList.Swap, List.getElem?_eq_getElem hi, List.getElem?_eq_getElem hj]
  · exact set_set_perm pl.entries i j hi hj

theorem Less_total (pl : ProxyList) (i j : Nat) (hi : i < pl.Len) (hj : j < pl.Len) :
    ∃ b, pl.Less i j = some b := by
  unfold ProxyList.Len at hi hj
  unfold ProxyList.Less
  simp only [List.getElem?_eq_getElem hi, List.getElem?_eq_getElem hj, Option.some_bind]
  split_ifs <;> exact ⟨_, rfl⟩

theorem SortProg.run_spec {n : Nat} (prog : SortProg n) :
    ∀ pl : ProxyList, pl.Len = n →
      ∃ pl1, prog.run pl = some pl1 ∧ pl1.entries.Perm pl.entries ∧
        pl1.sortCol = pl.sortCol ∧ pl1.asc = pl.asc := by
  induction prog with
  | done => intro pl _; exact ⟨pl, rfl, List.Perm.refl _, rfl, rfl⟩
  | less i j yes no ihy ihn =>
    intro pl hn
    obtain ⟨b, hb⟩ := Less_total pl i j (hn ▸ i.isLt) (hn ▸ j.isLt)
    simp only [SortProg.run, hb, Option.some_bind]
    cases b
    · simpa using ihn pl hn
    · simpa using ihy pl hn
  | swap i j next ih =>
    intro pl hn
    obtain ⟨pl1, h1, hp, hc, ha⟩ := Swap_spec pl i j (hn ▸ i.isLt) (hn ▸ j.isLt)
    have hlen : pl1.Len = n := by
      unfold ProxyList.Len at hn ⊢
      rw [hp.length_eq, hn]
    obtain ⟨pl2, h2, hp2, hc2, ha2⟩ := ih pl1 hlen
    exact ⟨pl2, by simp [SortProg.run, h1, h2], hp2.trans hp, hc2.trans hc, ha2.trans ha⟩

/-- C7: `sort.Sort(proxyList)` returns for every store, every column index
(also one outside 0..3) and every direction, and the entries after it are a
permutation of the entries before it, of the same length. -/
theorem sort_is_permutation (alg : SortAlg) (entries : List ProxyEntry) (sortCol : Int)
    (asc : Bool) :
    ∃ pl1, sortSort alg ⟨entries, sortCol, asc⟩ = some pl1 ∧
      pl1.entries.Perm entries ∧ pl1.entries.length = entries.length ∧
      (∀ e, pl1.entries.count e = entries.count e) := by
  obtain ⟨pl1, h1, hp, _, _⟩ := (alg (ProxyList.Len ⟨entries, sortCol, asc⟩)).run_spec
    ⟨entries, sortCol, asc⟩ rfl
  exact ⟨pl1, h1, hp, hp.length_eq, fun e => hp.count_eq e⟩

/-- C9: a click on the header of column `c` sets the directive to
`(sortCol, not asc)` when `c` is the current sort column and to `(c, true)`
otherwise; two clicks in a row on the current sort column give back the
original column and direction. -/
theorem headerClick_directive (alg : SortAlg) (pl : ProxyList) (c : Int) :
    (∃ pl1, headerClick alg pl c = some pl1 ∧
      (pl1.sortCol, pl1.asc) = (if c = pl.sortCol then (pl.sortCol, !pl.asc) else (c, true))) ∧
    (∃ pl1 pl2, headerClick alg pl pl.sortCol = some pl1 ∧
      headerClick alg pl1 pl.sortCol = some pl2 ∧
      pl2.sortCol = pl.sortCol ∧ pl2.asc = pl.asc) := by
  have key : ∀ (q : ProxyList) (d : Int), ∃ q1, headerClick alg q d = some q1 ∧
      q1.sortCol = (if q.sortCol = d then q.sortCol else d) ∧
      q1.asc = (if q.sortCol = d then !q.asc else true) := by
    intro q d
    unfold headerClick
    by_cases h : q.sortCol = d
    · rw [if_pos h]
      unfold sortSort
      obtain ⟨q1, h1, _, hc, ha⟩ := (alg (ProxyList.Len { q with asc := !q.asc })).run_spec
        { q with asc := !q.asc } rfl
      exact ⟨q1, by simpa [h] using h1, by simpa [h] using hc, by simpa [h] using ha⟩
    · rw [if_neg h]
      unfold sortSort
      obtain ⟨q1, h1, _, hc, ha⟩ :=
        (alg (ProxyList.Len { q with sortCol := d, asc := true })).run_spec
          { q with sortCol := d, asc := true } rfl
      exact ⟨q1, by simpa [h] using h1, by simpa [h] using hc, by simpa [h] using ha⟩
  constructor
  · obtain ⟨q1, h1, hc, ha⟩ := key pl c
    refine ⟨q1, h1, ?_⟩
    by_cases h : c = pl.sortCol
    · subst h; simp [hc, ha]
    · have h2 : ¬ pl.sortCol = c := fun e => h e.symm
      simp [hc, ha, h, h2]
  · obtain ⟨q1, h1, hc, ha⟩ := key pl pl.sortCol
    obtain ⟨q2, h2, hc2, ha2⟩ := key q1 pl.sortCol
    simp only [if_true] at hc ha
    refine ⟨q1, q2, h1, h2, ?_, ?_⟩
    · simp [hc2, hc]
    · simp [ha2, hc, ha]

theorem strLess_false_iff (a b : String) : strLess a b = false ↔ b ≤ a := by
  unfold strLess
  rw [decide_eq_false_iff_not, ← String.lt_iff_toList_lt]
  exact not_lt

theorem KeyOrdered.refl (col : Int) (asc : Bool) (a : ProxyEntry) : KeyOrdered col asc a a := by
  unfold KeyOrdered
  split_ifs <;> exact le_refl _

theorem KeyOrdered.trans {col : Int} {asc : Bool} {a b c : ProxyEntry}
    (h1 : KeyOrdered col asc a b) (h2 : KeyOrdered col asc b c) : KeyOrdered col asc a c := by
  unfold KeyOrdered at *
  split_ifs at * <;> first | exact le_trans h1 h2 | exact le_trans h2 h1

/-- A `Less` that answers `false` on in-range indices means the keys are in order. -/
theorem Less_false_keyOrdered (pl : ProxyList)
    (hcol : pl.sortCol = 0 ∨ pl.sortCol = 1 ∨ pl.sortCol = 2 ∨ pl.sortCol = 3)
    (i j : Nat) (hi : i < pl.entries.length) (hj : j < pl.entries.length)
    (h : pl.Less j i = some false) :
    KeyOrdered pl.sortCol pl.asc pl.entries[i] pl.entries[j] := by
  unfold ProxyList.Less at h
  simp only [List.getElem?_eq_getElem hi, List.getElem?_eq_getElem hj, Option.some_bind] at h
  unfold KeyOrdered
  rcases hcol with hc | hc | hc | hc <;> rw [hc] at h ⊢ <;>
    cases hasc : pl.asc <;>
    simp [hasc, strLess_false_iff] at h ⊢ <;> exact h

theorem IsSorted_adjacent (pl : ProxyList) (h : IsSorted pl = true) (i : Nat)
    (hi : i + 1 < pl.Len) : pl.Less (i + 1) i = some false := by
  unfold IsSorted at h
  rw [List.all_eq_true] at h
  have := h i (List.mem_range.mpr (by omega))
  simpa using this

theorem keyOrdered_of_isSorted (pl : ProxyList)
    (hcol : pl.sortCol = 0 ∨ pl.sortCol = 1 ∨ pl.sortCol = 2 ∨ pl.sortCol = 3)
    (hs : IsSorted pl = true) (i : Nat) (hi : i < pl.entries.length) :
    ∀ d (h : i + d < pl.entries.length),
      KeyOrdered pl.sortCol pl.asc pl.entries[i] pl.entries[i + d] := by
  intro d
  induction d with
  | zero => intro h; exact KeyOrdered.refl _ _ _
  | succ d ih =>
    intro h
    have h1 : i + d < pl.entries.length := by omega
    have step := Less_false_keyOrdered pl hcol (i + d) (i + d + 1) h1 h (IsSorted_adjacent pl hs (i + d) h)
    exact (ih h1).trans step


/-! ### The library's insertion sort meets the contract of `sort.Sort` -/

theorem KeyOrdered.total (col : Int) (asc : Bool) (a b : ProxyEntry) :
    KeyOrdered col asc a b ∨ KeyOrdered col asc b a := by
  unfold KeyOrdered
  split_ifs <;> exact le_total _ _

/-- The answer of `Less` on two positions in range, in terms of the key order. -/
theorem Less_spec (pl : ProxyList)
    (hcol : pl.sortCol = 0 ∨ pl.sortCol = 1 ∨ pl.sortCol = 2 ∨ pl.sortCol = 3)
    (i j : Nat) (a b : ProxyEntry) (hi : pl.entries[i]? = some a) (hj : pl.entries[j]? = some b) :
    (pl.Less j i = some false ∧ KeyOrdered pl.sortCol pl.asc a b) ∨
    (pl.Less j i = some true ∧ KeyOrdered pl.sortCol pl.asc b a ∧
      ¬ KeyOrdered pl.sortCol pl.asc a b) := by
  have hstr : ∀ x y : String, (strLess x y = false ∧ y ≤ x) ∨ (strLess x y = true ∧ x ≤ y ∧ ¬ y ≤ x) := by
    intro x y
    cases h : strLess x y
    · exact Or.inl ⟨rfl, (strLess_false_iff x y).mp h⟩
    · have hlt : x < y := by
        unfold strLess at h
        rw [decide_eq_true_iff, ← String.lt_iff_toList_lt] at h
        exact h
      exact Or.inr ⟨rfl, le_of_lt hlt, not_le.mpr hlt⟩
  have hint : ∀ x y : Int, (decide (x < y) = false ∧ y ≤ x) ∨
      (decide (x < y) = true ∧ x ≤ y ∧ ¬ y ≤ x) := by
    intro x y
    by_cases h : x < y
    · exact Or.inr ⟨by simp [h], le_of_lt h, not_le.mpr h⟩
    · exact Or.inl ⟨by simp [h], not_lt.mp h⟩
  unfold ProxyList.Less KeyOrdered
  simp only [hi, hj, Option.some_bind]
  rcases hcol with hc | hc | hc | hc <;> rw [hc] <;> cases pl.asc <;>
    simp only [if_true, if_false, Bool.false_eq_true, Option.some.injEq,
      show (1 : Int) ≠ 0 by decide, show (2 : Int) ≠ 0 by decide, show (3 : Int) ≠ 0 by decide,
      show (2 : Int) ≠ 1 by decide, show (3 : Int) ≠ 1 by decide, show (3 : Int) ≠ 2 by decide,
      gt_iff_lt]
  · exact hstr a.Type_ b.Type_
  · exact hstr b.Type_ a.Type_
  · exact hstr a.Address b.Address
  · exact hstr b.Address a.Address
  · exact hint a.Latency b.Latency
  · exact hint b.Latency a.Latency
  · exact hstr a.Status b.Status
  · exact hstr b.Status a.Status

/-- The entries after `Swap(j+1, j)`. -/
theorem Swap_adjacent (pl : ProxyList) (j : Nat) (hj : j + 1 < pl.Len) :
    ∃ pl1, pl.Swap (j + 1) j = some pl1 ∧ pl1.Len = pl.Len ∧
      pl1.sortCol = pl.sortCol ∧ pl1.asc = pl.asc ∧
      ∀ m : Nat, pl1.entries[m]? =
        if m = j then pl.entries[j + 1]? else if m = j + 1 then pl.entries[j]?
        else pl.entries[m]? := by
  unfold ProxyList.Len at hj
  have hj0 : j < pl.entries.length := by omega
  refine ⟨{ pl with entries := (pl.entries.set (j + 1) pl.entries[j]).set j pl.entries[j + 1] },
    ?_, ?_, rfl, rfl, ?_⟩
  · simp [ProxyList.Swap, List.getElem?_eq_getElem hj, List.getElem?_eq_getElem hj0]
  · simp [ProxyList.Len]
  · intro m
    simp only [List.getElem?_set, List.length_set]
    by_cases h1 : m = j
    · subst h1
      simp [hj0, List.getElem?_eq_getElem hj]
    · by_cases h2 : m = j + 1
      · subst h2
        simp [hj, List.getElem?_eq_getElem hj0]
      · have h3 : ¬ j = m := fun e => h1 e.symm
        have h4 : ¬ j + 1 = m := fun e => h2 e.symm
        simp [h1, h2, h3, h4]

/-- The inner loop of insertion sort, entered at position `j` with the prefix up
to `i` in order except for the element at `j`, which is not above its right
neighbour's left neighbour, leaves the prefix up to `i` in order. -/
theorem insertInner_spec {n : Nat} (rest : SortProg n) (col : Int) (asc : Bool)
    (hcol : col = 0 ∨ col = 1 ∨ col = 2 ∨ col = 3) (i : Nat) (hi : i < n) :
    ∀ (j : Nat) (pl : ProxyList), pl.Len = n → pl.sortCol = col → pl.asc = asc → j ≤ i →
      (∀ k, k + 1 ≤ i → k + 1 ≠ j → AdjOrdered col asc pl.entries k) →
      (0 < j → j < i → ∀ a b, pl.entries[j - 1]? = some a → pl.entries[j + 1]? = some b →
        KeyOrdered col asc a b) →
      ∃ pl1, (insertInner n rest j).run pl = rest.run pl1 ∧ pl1.Len = n ∧
        pl1.sortCol = col ∧ pl1.asc = asc ∧
        ∀ k, k + 1 ≤ i → AdjOrdered col asc pl1.entries k := by
  intro j
  induction j with
  | zero =>
    intro pl hn hc ha _ hA _
    exact ⟨pl, rfl, hn, hc, ha, fun k hk => hA k hk (by omega)⟩
  | succ j ih =>
    intro pl hn hc ha hji hA hB
    have hjn : j + 1 < n := by omega
    have hlen : pl.entries.length = n := hn
    have hj1 : j + 1 < pl.entries.length := by omega
    have hj0 : j < pl.entries.length := by omega
    have hcol2 : pl.sortCol = 0 ∨ pl.sortCol = 1 ∨ pl.sortCol = 2 ∨ pl.sortCol = 3 := by
      rw [hc]; exact hcol
    have hspec := Less_spec pl hcol2 j (j + 1) pl.entries[j] pl.entries[j + 1]
      (List.getElem?_eq_getElem hj0) (List.getElem?_eq_getElem hj1)
    rw [hc, ha] at hspec
    simp only [insertInner, hjn, dite_true, SortProg.run]
    rcases hspec with ⟨hless, hord⟩ | ⟨hless, hord, _⟩
    · -- the element is in place: the loop ends
      refine ⟨pl, by simp [hless], hn, hc, ha, ?_⟩
      intro k hk
      by_cases hkj : k = j
      · subst hkj
        intro a b h1 h2
        rw [List.getElem?_eq_getElem hj0] at h1
        rw [List.getElem?_eq_getElem hj1] at h2
        cases h1; cases h2
        exact hord
      · exact hA k hk (by omega)
    · -- the element moves one position down
      obtain ⟨pl1, hsw, hn1, hc1, ha1, hget⟩ := Swap_adjacent pl j (by rw [hn]; exact hjn)
      obtain ⟨pl2, hrun, hn2, hc2, ha2, hpost⟩ := ih pl1 (hn1.trans hn) (hc1.trans hc)
        (ha1.trans ha) (by omega)
        (by
          intro k hk hkj a b h1 h2
          rw [hget] at h1 h2
          by_cases e1 : k = j
          · subst e1
            simp only [if_true] at h1
            have e2 : ¬ k + 1 = k := by omega
            simp only [e2, if_false, if_true] at h2
            rw [List.getElem?_eq_getElem hj1] at h1
            rw [List.getElem?_eq_getElem hj0] at h2
            cases h1; cases h2
            exact hord
          · by_cases e2 : k = j + 1
            · subst e2
              have e3 : ¬ j + 1 + 1 = j := by omega
              have e4 : ¬ j + 1 + 1 = j + 1 := by omega
              simp only [e1, if_false, if_true] at h1
              simp only [e3, e4, if_false] at h2
              exact hB (by omega) (by omega) a b (by simpa using h1) h2
            · have e3 : ¬ k + 1 = j := hkj
              by_cases e4 : k + 1 = j + 1
              · omega
              · simp only [e1, e2, if_false] at h1
                simp only [e3, e4, if_false] at h2
                exact hA k hk e4 a b h1 h2)
        (by
          intro hj hji2 a b h1 h2
          rw [hget] at h1 h2
          have e1 : ¬ j - 1 = j := by omega
          have e2 : ¬ j - 1 = j + 1 := by omega
          have e3 : ¬ j + 1 = j := by omega
          simp only [e1, e2, if_false] at h1
          simp only [e3, if_false, if_true] at h2
          have hk : j - 1 + 1 = j := by omega
          exact hA (j - 1) (by omega) (by omega) a b h1 (by rw [hk]; exact h2))
      exact ⟨pl2, by simp [hless, hsw, hrun], hn2, hc2, ha2, hpost⟩

/-- The outer loop of insertion sort, entered at `i` with the prefix below `i`
in order, returns with the whole slice in order. -/
theorem insertOuter_spec {n : Nat} (col : Int) (asc : Bool)
    (hcol : col = 0 ∨ col = 1 ∨ col = 2 ∨ col = 3) :
    ∀ (k i : Nat) (pl : ProxyList), pl.Len = n → pl.sortCol = col → pl.asc = asc →
      k + i = n → 1 ≤ i →
      (∀ m, m + 1 < i → AdjOrdered col asc pl.entries m) →
      ∃ pl1, (insertOuter n k i).run pl = some pl1 ∧ pl1.Len = n ∧
        pl1.sortCol = col ∧ pl1.asc = asc ∧
        ∀ m, m + 1 < n → AdjOrdered col asc pl1.entries m := by
  intro k
  induction k with
  | zero =>
    intro i pl hn hc ha hki _ hpre
    have : i = n := by omega
    subst this
    exact ⟨pl, rfl, hn, hc, ha, hpre⟩
  | succ k ih =>
    intro i pl hn hc ha hki hi hpre
    obtain ⟨pl1, hrun, hn1, hc1, ha1, hpost⟩ :=
      insertInner_spec (insertOuter n k (i + 1)) col asc hcol i (by omega) i pl hn hc ha
        (Nat.le_refl _) (fun m hm hne => hpre m (by omega)) (fun _ h => absurd h (by omega))
    obtain ⟨pl2, hrun2, hn2, hc2, ha2, hpost2⟩ := ih (i + 1) pl1 hn1 hc1 ha1 (by omega)
      (by omega) (fun m hm => hpost m (by omega))
    exact ⟨pl2, by simp only [insertOuter]; rw [hrun, hrun2], hn2, hc2, ha2, hpost2⟩

/-- On the columns 0..3 the library's insertion sort returns, and its result
passes `sort.IsSorted`. -/
theorem insertionSort_isSorted (pl : ProxyList)
    (hcol : pl.sortCol = 0 ∨ pl.sortCol = 1 ∨ pl.sortCol = 2 ∨ pl.sortCol = 3) :
    ∃ pl1, sortSort insertionSort pl = some pl1 ∧ IsSorted pl1 = true := by
  unfold sortSort insertionSort
  by_cases h0 : pl.Len = 0
  · refine ⟨pl, by simp [h0, insertOuter, SortProg.run], ?_⟩
    simp [IsSorted, h0]
  · obtain ⟨pl1, hrun, hn1, hc1, ha1, hpost⟩ :=
      insertOuter_spec (n := pl.Len) pl.sortCol pl.asc hcol (pl.Len - 1) 1 pl rfl rfl rfl
        (by omega) (Nat.le_refl _) (fun m hm => absurd hm (by omega))
    refine ⟨pl1, hrun, ?_⟩
    unfold IsSorted
    rw [List.all_eq_true]
    intro m hm
    have hm2 : m + 1 < pl1.entries.length := by
      have := List.mem_range.mp hm
      unfold ProxyList.Len at this hn1
      omega
    have hm1 : m < pl1.entries.length := by omega
    have hspec := Less_spec pl1 (by rw [hc1]; exact hcol) m (m + 1) pl1.entries[m]
      pl1.entries[m + 1] (List.getElem?_eq_getElem hm1) (List.getElem?_eq_getElem hm2)
    have hadj := hpost m (by rw [← hn1]; exact hm2) pl1.entries[m]
      pl1.entries[m + 1] (List.getElem?_eq_getElem hm1) (List.getElem?_eq_getElem hm2)
    rw [hc1, ha1] at hspec
    rcases hspec with ⟨hless, _⟩ | ⟨_, _, hnot⟩
    · simp [hless]
    · exact absurd hadj hnot

/-- C8: for every column 0..3 and every direction, once `sort.Sort` has done its
work with `Less` as comparator (its result passes the library's `IsSorted`),
the keys of that column are in order at all positions `i < j`: ascending or
descending as the directive says, lexicographically for scheme, address and
status and numerically for latency. The library's insertion sort is such an
algorithm: on every store it returns with the keys in that order. -/
theorem sort_orders_by_column (entries : List ProxyEntry) (sortCol : Int) (asc : Bool)
    (hcol : sortCol = 0 ∨ sortCol = 1 ∨ sortCol = 2 ∨ sortCol = 3) :
    (∀ (alg : SortAlg) (pl1 : ProxyList), sortSort alg ⟨entries, sortCol, asc⟩ = some pl1 →
      IsSorted pl1 = true →
      ∀ (i j : Nat) (hij : i < j) (hj : j < pl1.entries.length),
        KeyOrdered sortCol asc pl1.entries[i] pl1.entries[j]) ∧
    (∃ pl1, sortSort insertionSort ⟨entries, sortCol, asc⟩ = some pl1 ∧
      ∀ (i j : Nat) (hij : i < j) (hj : j < pl1.entries.length),
        KeyOrdered sortCol asc pl1.entries[i] pl1.entries[j]) := by
  have general : ∀ (alg : SortAlg) (pl1 : ProxyList),
      sortSort alg ⟨entries, sortCol, asc⟩ = some pl1 → IsSorted pl1 = true →
      ∀ (i j : Nat) (hij : i < j) (hj : j < pl1.entries.length),
        KeyOrdered sortCol asc pl1.entries[i] pl1.entries[j] := by
    intro alg pl1 hrun hsorted i j hij hj
    obtain ⟨pl2, h2, _, hc, ha⟩ := (alg (ProxyList.Len ⟨entries, sortCol, asc⟩)).run_spec
      ⟨entries, sortCol, asc⟩ rfl
    have he : pl2 = pl1 := Option.some.inj (h2.symm.trans hrun)
    subst he
    simp only at hc ha
    have hi : i < pl2.entries.length := by omega
    have := keyOrdered_of_isSorted pl2 (by rw [hc]; exact hcol) hsorted i hi (j - i)
      (by omega)
    rw [hc, ha] at this
    have hidx : i + (j - i) = j := by omega
    simpa [hidx] using this
  refine ⟨general, ?_⟩
  obtain ⟨pl1, hrun, hsorted⟩ := insertionSort_isSorted ⟨entries, sortCol, asc⟩ hcol
  exact ⟨pl1, hrun, general insertionSort pl1 hrun hsorted⟩

/-! ## Theorems: the start handler and the run -/

theorem inFlight_setWorker (s : State) (k : Nat) (w w1 : Worker)
    (h : s.workers[k]? = some w) :
    inFlight (setWorker s k w1) + (if w.holdsPermit then 1 else 0) =
      inFlight s + (if w1.holdsPermit then 1 else 0) := by
  obtain ⟨hk, hw⟩ := List.getElem?_eq_some_iff.mp h
  unfold inFlight setWorker
  simp only
  rw [List.countP_set _ _ _ _ hk, hw]
  have := List.boole_getElem_le_countP Worker.holdsPermit s.workers k hk
  rw [hw] at this
  omega

theorem SemInv_workerStep (net : Int → World) (s : State) (k : Nat) (h : SemInv s) :
    SemInv (workerStep net s k) ∧ (workerStep net s k).threads = s.threads := by
  unfold workerStep
  cases hw : s.workers[k]? with
  | none => exact ⟨h, rfl⟩
  | some w =>
    simp only
    obtain ⟨h1, h2⟩ := h
    have key : ∀ (s1 : State) (w1 : Worker), s1.workers = s.workers → s1.pc = s.pc →
        s1.threads = s.threads → s1.sem ≤ s.sem →
        s1.sem + (if w.holdsPermit then 1 else 0) = s.sem + (if w1.holdsPermit then 1 else 0) →
        SemInv (setWorker s1 k w1) ∧ (setWorker s1 k w1).threads = s.threads := by
      intro s1 w1 e1 e2 e3 e5 e4
      have hw1 : s1.workers[k]? = some w := by rw [e1]; exact hw
      have hin := inFlight_setWorker s1 k w w1 hw1
      have hin0 : inFlight s1 = inFlight s := by unfold inFlight; rw [e1]
      refine ⟨⟨?_, ?_⟩, e3⟩
      · show s1.sem = inFlight (setWorker s1 k w1) + (if s1.pc = .goStmt then 1 else 0)
        rw [e2]; omega
      · show s1.sem ≤ s1.threads
        rw [e3]; omega
    have hpos : w.holdsPermit = true → 0 < inFlight s := by
      intro hp
      obtain ⟨hk, hwk⟩ := List.getElem?_eq_some_iff.mp hw
      have := List.boole_getElem_le_countP Worker.holdsPermit s.workers k hk
      rw [hwk, hp] at this
      simpa [inFlight] using this
    cases hpc : w.pc
    case begin => exact key s _ rfl rfl rfl (Nat.le_refl _) (by simp [Worker.holdsPermit, hpc])
    case probe =>
      cases s.proxyList.entries[w.i]? with
      | none => exact ⟨⟨h1, h2⟩, rfl⟩
      | some e => exact key s _ rfl rfl rfl (Nat.le_refl _) (by simp [Worker.holdsPermit, hpc])
    case setLatency =>
      cases s.proxyList.entries[w.i]? with
      | none => exact ⟨⟨h1, h2⟩, rfl⟩
      | some e => exact key (setEntry s w.i _) _ rfl rfl rfl (Nat.le_refl _) (by simp [Worker.holdsPermit, hpc, setEntry])
    case setStatus =>
      cases s.proxyList.entries[w.i]? with
      | none => exact ⟨⟨h1, h2⟩, rfl⟩
      | some e => exact key (setEntry s w.i _) _ rfl rfl rfl (Nat.le_refl _) (by simp [Worker.holdsPermit, hpc, setEntry])
    case appendRead =>
      cases s.proxyList.entries[w.i]? with
      | none => exact ⟨⟨h1, h2⟩, rfl⟩
      | some e =>
        simp only
        split
        · exact key s _ rfl rfl rfl (Nat.le_refl _) (by simp [Worker.holdsPermit, hpc])
        · exact key s _ rfl rfl rfl (Nat.le_refl _) (by simp [Worker.holdsPermit, hpc])
    case appendWrite =>
      simp only
      split
      · exact key { s with goodProxies := w.appended } _ rfl rfl rfl (Nat.le_refl _) (by simp [Worker.holdsPermit, hpc])
      · exact key { s with badProxies := w.appended } _ rfl rfl rfl (Nat.le_refl _) (by simp [Worker.holdsPermit, hpc])
    case release =>
      simp only
      have hp : w.holdsPermit = true := by simp [Worker.holdsPermit, hpc]
      have := hpos hp
      split
      · exact key { s with sem := s.sem - 1 } _ rfl rfl rfl (Nat.sub_le _ _)
          (by simp [Worker.holdsPermit, hpc]; omega)
      · exact ⟨⟨h1, h2⟩, rfl⟩
    case wgDone =>
      simp only
      split
      · exact key { s with wg := s.wg - 1 } _ rfl rfl rfl (Nat.le_refl _) (by simp [Worker.holdsPermit, hpc])
      · exact ⟨⟨h1, h2⟩, rfl⟩
    case finished => exact ⟨⟨h1, h2⟩, rfl⟩


theorem SemInv_mainStep (s : State) (h : SemInv s) :
    SemInv (mainStep s) ∧ (mainStep s).threads = s.threads := by
  obtain ⟨h1, h2⟩ := h
  unfold mainStep
  cases hpc : s.pc <;> simp only [hpc] at h1 ⊢
  case loop =>
    refine ⟨?_, by split_ifs <;> rfl⟩
    split_ifs <;> exact ⟨by simpa [inFlight] using h1, h2⟩
  case wgAdd => exact ⟨⟨by simpa [inFlight] using h1, h2⟩, trivial⟩
  case semSend =>
    split
    · rename_i hlt
      refine ⟨⟨?_, ?_⟩, rfl⟩
      · simp only [inFlight, if_true] at h1 ⊢
        simp at h1
        omega
      · show s.sem + 1 ≤ s.threads
        omega
    · exact ⟨⟨by simpa [hpc] using h1, h2⟩, rfl⟩
  case goStmt =>
    refine ⟨⟨?_, h2⟩, trivial⟩
    simp only [inFlight, if_true] at h1 ⊢
    simp [List.countP_append, Worker.holdsPermit]
    omega
  case wgWait =>
    split
    · exact ⟨⟨by simpa [inFlight] using h1, h2⟩, rfl⟩
    · exact ⟨⟨by simpa [hpc] using h1, h2⟩, rfl⟩
  case closeSem => exact ⟨⟨by simpa [inFlight] using h1, h2⟩, trivial⟩
  case returned => exact ⟨⟨by simpa [hpc] using h1, h2⟩, trivial⟩

theorem SemInv_step (net : Int → World) (s : State) (st : Step) (h : SemInv s) :
    SemInv (step net s st) ∧ (step net s st).threads = s.threads := by
  unfold step
  split
  · exact ⟨h, rfl⟩
  · cases st with
    | main => exact SemInv_mainStep s h
    | worker k => exact SemInv_workerStep net s k h
    | tick d => exact ⟨h, rfl⟩
    | stop => exact ⟨h, rfl⟩

theorem SemInv_event (net : Int → World) (alg : SortAlg) (s : State) (ev : Event)
    (h : SemInv s) :
    SemInv (event net alg s ev) ∧ (event net alg s ev).threads = s.threads := by
  cases ev with
  | run st => exact SemInv_step net s st h
  | header col =>
    unfold event
    simp only
    split
    · exact ⟨h, rfl⟩
    · split <;> exact ⟨h, rfl⟩

theorem SemInv_execUI (net : Int → World) (alg : SortAlg) (evs : List Event) :
    ∀ s, SemInv s → SemInv (execUI net alg evs s) ∧ (execUI net alg evs s).threads = s.threads := by
  induction evs with
  | nil => intro s h; exact ⟨h, rfl⟩
  | cons ev evs ih =>
    intro s h
    obtain ⟨h1, h2⟩ := SemInv_event net alg s ev h
    obtain ⟨h3, h4⟩ := ih _ h1
    exact ⟨h3, h4.trans h2⟩

/-- When the start handler lets the run begin, the capacity of the semaphore is
the thread count, at least 1, and no probe is in flight. -/
theorem startButton_running (lib : Lib) (s0 : State) (h : (startButton lib s0).2 = none) :
    SemInv (startButton lib s0).1 ∧ 1 ≤ (startButton lib s0).1.threads ∧
      (parseInt lib s0.threadText 50).toOption
        = some ((startButton lib s0).1.threads : Int) := by
  unfold startButton at h ⊢
  simp only at h ⊢
  cases hd : lib.parseDuration (s0.timeoutText ++ "s") with
  | error e => simp [hd] at h
  | ok t =>
    cases hp : parseInt lib s0.threadText 50 with
    | error e => simp [hd, hp] at h
    | ok n =>
      by_cases hn : n ≤ 0
      · simp [hd, hp, hn] at h
      · simp only [hd, hp, hn, if_false]
        refine ⟨⟨by simp [inFlight], Nat.zero_le _⟩, ?_, ?_⟩
        · show 1 ≤ n.toNat
          omega
        · show (Except.ok n : Except String Int).toOption = some ((n.toNat : Nat) : Int)
          have : ((n.toNat : Nat) : Int) = n := Int.toNat_of_nonneg (by omega)
          rw [this]; rfl

theorem executing_le_inFlight (s : State) : executing s ≤ inFlight s := by
  unfold executing inFlight
  apply List.countP_mono_left
  intro w _ hw
  unfold Worker.inBody at hw
  unfold Worker.holdsPermit
  cases hpc : w.pc <;> simp [hpc] at hw ⊢

/-- C3: in every run that the start handler begins, whatever the scheduler, the
clock, the stop button and the header buttons do, the number of probes let in
and not yet finished never exceeds the thread count `maxConcurrent >= 1`: every
such probe holds one permit of the semaphore, taken by the handler before the
goroutine was started and given back only by the deferred receive at its end,
and the permits in the channel never exceed its capacity. -/
theorem concurrency_bound (lib : Lib) (net : Int → World) (alg : SortAlg) (s0 : State)
    (evs : List Event) (hstart : (startButton lib s0).2 = none) :
    1 ≤ (startButton lib s0).1.threads ∧
    (execUI net alg evs (startButton lib s0).1).threads = (startButton lib s0).1.threads ∧
    executing (execUI net alg evs (startButton lib s0).1)
      ≤ inFlight (execUI net alg evs (startButton lib s0).1) ∧
    inFlight (execUI net alg evs (startButton lib s0).1) ≤ (startButton lib s0).1.threads ∧
    (execUI net alg evs (startButton lib s0).1).sem =
      inFlight (execUI net alg evs (startButton lib s0).1) +
        (if (execUI net alg evs (startButton lib s0).1).pc = .goStmt then 1 else 0) := by
  obtain ⟨hinv, hpos, _⟩ := startButton_running lib s0 hstart
  obtain ⟨⟨h1, h2⟩, h3⟩ := SemInv_execUI net alg evs _ hinv
  refine ⟨hpos, h3, executing_le_inFlight _, ?_, h1⟩
  rw [h3] at h2
  omega

theorem Launched.mono {E0 : List ProxyEntry} {K K1 : Nat} {p : ProxyEntry}
    (h : Launched E0 K p) (hk : K ≤ K1) : Launched E0 K1 p := by
  obtain ⟨j, e0, hj, he, ha, ht⟩ := h
  exact ⟨j, e0, by omega, he, ha, ht⟩

theorem RunInv.setWorker {E0 : List ProxyEntry} {s : State} {k : Nat} {w w1 : Worker}
    (h : RunInv E0 s) (hw : s.workers[k]? = some w) (hi : w1.i = w.i)
    (happ : ∀ p ∈ w1.appended, Launched E0 s.workers.length p) :
    RunInv E0 (setWorker s k w1) := by
  have hlen : (s.workers.set k w1).length = s.workers.length := List.length_set ..
  refine ⟨h.len, h.n_eq, hlen.trans h.wlen, ?_, h.bound, h.inLoop, ?_, h.same, ?_, ?_⟩
  · intro k1 w2 h2
    show w2.i = k1
    change (s.workers.set k w1)[k1]? = some w2 at h2
    rw [List.getElem?_set] at h2
    split at h2
    · rename_i hk
      split at h2
      · cases h2
        rw [hi, ← hk]; exact h.widx k w hw
      · cases h2
    · exact h.widx k1 w2 h2
  · intro j hj
    exact h.beyond j (by rw [← hlen]; exact hj)
  · intro p hp
    show Launched E0 (s.workers.set k w1).length p
    rw [hlen]; exact h.parts p hp
  · intro w2 hw2 p hp
    show Launched E0 (s.workers.set k w1).length p
    rw [hlen]
    change w2 ∈ s.workers.set k w1 at hw2
    rcases List.mem_or_eq_of_mem_set hw2 with hm | he
    · exact h.apps w2 hm p hp
    · subst he; exact happ p hp

theorem RunInv.setEntry {E0 : List ProxyEntry} {s : State} {j : Nat} {e e1 : ProxyEntry}
    (h : RunInv E0 s) (hj : j < s.workers.length) (he : s.proxyList.entries[j]? = some e)
    (ha : e1.Address = e.Address) (ht : e1.Type_ = e.Type_) :
    RunInv E0 (setEntry s j e1) := by
  refine ⟨?_, h.n_eq, h.wlen, h.widx, h.bound, h.inLoop, ?_, ?_, h.parts, h.apps⟩
  · show (s.proxyList.entries.set j e1).length = E0.length
    rw [List.length_set]; exact h.len
  · intro j1 hj1
    show (s.proxyList.entries.set j e1)[j1]? = E0[j1]?
    have hne : j ≠ j1 := by
      have : s.workers.length ≤ j1 := hj1
      omega
    rw [List.getElem?_set_ne hne]
    exact h.beyond j1 hj1
  · intro j1 e2 h2
    change (s.proxyList.entries.set j e1)[j1]? = some e2 at h2
    rw [List.getElem?_set] at h2
    split at h2
    · rename_i hjj
      split at h2
      · cases h2
        obtain ⟨e0, h0, a0, t0⟩ := h.same j e he
        exact ⟨e0, hjj ▸ h0, ha.trans a0, ht.trans t0⟩
      · cases h2
    · exact h.same j1 e2 h2

theorem RunInv.workerStep {E0 : List ProxyEntry} (net : Int → World) {s : State} (k : Nat)
    (h : RunInv E0 s) : RunInv E0 (workerStep net s k) := by
  have frame : ∀ p : Bool, RunInv E0 { s with panicked := p } := fun _ =>
    ⟨h.len, h.n_eq, h.wlen, h.widx, h.bound, h.inLoop, h.beyond, h.same, h.parts, h.apps⟩
  unfold ProxyChecker.workerStep
  cases hw : s.workers[k]? with
  | none => exact h
  | some w =>
    simp only
    have hwm : w ∈ s.workers := List.getElem?_mem hw
    have hkl : k < s.workers.length := (List.getElem?_eq_some_iff.mp hw).1
    have hik : w.i = k := h.widx k w hw
    have keep := h.apps w hwm
    cases hpc : w.pc
    case begin => exact h.setWorker hw rfl keep
    case probe =>
      cases he : s.proxyList.entries[w.i]? with
      | none => exact frame true
      | some e => exact h.setWorker hw rfl keep
    case setLatency =>
      cases he : s.proxyList.entries[w.i]? with
      | none => exact frame true
      | some e =>
        have h1 : RunInv E0 (ProxyChecker.setEntry s w.i { e with Latency := s.now - w.start }) :=
          h.setEntry (by omega) he rfl rfl
        exact h1.setWorker hw rfl keep
    case setStatus =>
      cases he : s.proxyList.entries[w.i]? with
      | none => exact frame true
      | some e =>
        have h1 : RunInv E0 (ProxyChecker.setEntry s w.i { e with Status := w.status }) :=
          h.setEntry (by omega) he rfl rfl
        exact h1.setWorker hw rfl keep
    case appendRead =>
      cases he : s.proxyList.entries[w.i]? with
      | none => exact frame true
      | some e =>
        have hle : Launched E0 s.workers.length e := by
          obtain ⟨e0, h0, a0, t0⟩ := h.same w.i e he
          exact ⟨w.i, e0, by omega, h0, a0, t0⟩
        simp only
        split
        · refine h.setWorker hw rfl ?_
          intro p hp
          rcases List.mem_append.mp hp with hp | hp
          · exact h.parts p (Or.inl hp)
          · rw [List.mem_singleton.mp hp]; exact hle
        · refine h.setWorker hw rfl ?_
          intro p hp
          rcases List.mem_append.mp hp with hp | hp
          · exact h.parts p (Or.inr hp)
          · rw [List.mem_singleton.mp hp]; exact hle
    case appendWrite =>
      simp only
      split
      · have h1 : RunInv E0 { s with goodProxies := w.appended } :=
          ⟨h.len, h.n_eq, h.wlen, h.widx, h.bound, h.inLoop, h.beyond, h.same,
            fun p hp => hp.elim (keep p) (fun hb => h.parts p (Or.inr hb)), h.apps⟩
        exact h1.setWorker hw rfl keep
      · have h1 : RunInv E0 { s with badProxies := w.appended } :=
          ⟨h.len, h.n_eq, h.wlen, h.widx, h.bound, h.inLoop, h.beyond, h.same,
            fun p hp => hp.elim (fun hg => h.parts p (Or.inl hg)) (keep p), h.apps⟩
        exact h1.setWorker hw rfl keep
    case release =>
      simp only
      split
      · have h1 : RunInv E0 { s with sem := s.sem - 1 } :=
          ⟨h.len, h.n_eq, h.wlen, h.widx, h.bound, h.inLoop, h.beyond, h.same, h.parts, h.apps⟩
        exact h1.setWorker hw rfl keep
      · exact h
    case wgDone =>
      simp only
      split
      · have h1 : RunInv E0 { s with wg := s.wg - 1 } :=
          ⟨h.len, h.n_eq, h.wlen, h.widx, h.bound, h.inLoop, h.beyond, h.same, h.parts, h.apps⟩
        exact h1.setWorker hw rfl keep
      · exact frame true
    case finished => exact h

theorem RunInv.mainStep {E0 : List ProxyEntry} {s : State} (h : RunInv E0 s) :
    RunInv E0 (mainStep s) := by
  unfold ProxyChecker.mainStep
  cases hpc : s.pc <;> simp only
  case loop =>
    split
    · rename_i hlt
      have hlt2 : s.i < E0.length := h.n_eq ▸ hlt
      split
      · exact ⟨h.len, h.n_eq, h.wlen, h.widx, h.bound, fun _ => hlt2, h.beyond, h.same,
          h.parts, h.apps⟩
      · exact ⟨h.len, h.n_eq, h.wlen, h.widx, h.bound, fun _ => hlt2, h.beyond, h.same,
          h.parts, h.apps⟩
    · exact ⟨h.len, h.n_eq, h.wlen, h.widx, h.bound, fun hc => by simp at hc, h.beyond,
        h.same, h.parts, h.apps⟩
  case wgAdd =>
    have hlt := h.inLoop (Or.inl hpc)
    exact ⟨h.len, h.n_eq, h.wlen, h.widx, h.bound, fun _ => hlt, h.beyond, h.same,
      h.parts, h.apps⟩
  case semSend =>
    have hlt := h.inLoop (Or.inr (Or.inl hpc))
    split
    · exact ⟨h.len, h.n_eq, h.wlen, h.widx, h.bound, fun _ => hlt, h.beyond, h.same,
        h.parts, h.apps⟩
    · exact h
  case goStmt =>
    have hlt := h.inLoop (Or.inr (Or.inr hpc))
    have hlen : (s.workers ++ [(⟨s.i, .begin, 0, "", []⟩ : Worker)]).length
        = s.workers.length + 1 := by simp
    refine ⟨h.len, h.n_eq, ?_, ?_, ?_, fun hc => by simp at hc, ?_, h.same, ?_, ?_⟩
    · show (s.workers ++ [_]).length = s.i + 1
      rw [hlen, h.wlen]
    · intro k w hw
      change (s.workers ++ [_])[k]? = some w at hw
      by_cases hk : k < s.workers.length
      · rw [List.getElem?_append_left hk] at hw
        exact h.widx k w hw
      · rw [List.getElem?_append_right (by omega)] at hw
        have hk0 : k - s.workers.length = 0 := by
          by_contra hne
          rw [List.getElem?_eq_none (by simp; omega)] at hw
          cases hw
        rw [hk0] at hw
        simp at hw
        rw [← hw]
        show s.i = k
        have := h.wlen
        omega
    · show s.i + 1 ≤ E0.length
      omega
    · intro j hj
      exact h.beyond j (by rw [hlen] at hj; omega)
    · intro p hp
      show Launched E0 (s.workers ++ [_]).length p
      rw [hlen]
      exact (h.parts p hp).mono (Nat.le_succ _)
    · intro w hw p hp
      show Launched E0 (s.workers ++ [_]).length p
      rw [hlen]
      change w ∈ s.workers ++ [_] at hw
      rcases List.mem_append.mp hw with hm | hm
      · exact (h.apps w hm p hp).mono (Nat.le_succ _)
      · rw [List.mem_singleton.mp hm] at hp
        cases hp
  case wgWait =>
    split
    · exact ⟨h.len, h.n_eq, h.wlen, h.widx, h.bound, fun hc => by simp at hc, h.beyond,
        h.same, h.parts, h.apps⟩
    · exact h
  case closeSem =>
    exact ⟨h.len, h.n_eq, h.wlen, h.widx, h.bound, fun hc => by simp at hc, h.beyond,
      h.same, h.parts, h.apps⟩
  case returned => exact h

theorem RunInv.step {E0 : List ProxyEntry} (net : Int → World) {s : State} (st : Step)
    (h : RunInv E0 s) : RunInv E0 (step net s st) := by
  unfold ProxyChecker.step
  split
  · exact h
  · cases st with
    | main => exact h.mainStep
    | worker k => exact h.workerStep net k
    | tick d =>
      exact ⟨h.len, h.n_eq, h.wlen, h.widx, h.bound, h.inLoop, h.beyond, h.same, h.parts,
        h.apps⟩
    | stop =>
      exact ⟨h.len, h.n_eq, h.wlen, h.widx, h.bound, h.inLoop, h.beyond, h.same, h.parts,
        h.apps⟩

theorem RunInv.exec {E0 : List ProxyEntry} (net : Int → World) (sched : List Step) :
    ∀ s, RunInv E0 s → RunInv E0 (exec net sched s) := by
  induction sched with
  | nil => intro s h; exact h
  | cons st sched ih => intro s h; exact ih _ (h.step net st)

/-- The state in which the start handler enters its loop satisfies the run
invariant for the store as it is at that moment. -/
theorem RunInv.start (lib : Lib) (s0 : State) (h : (startButton lib s0).2 = none) :
    RunInv s0.proxyList.entries (startButton lib s0).1 ∧
      (startButton lib s0).1.proxyList = s0.proxyList := by
  unfold startButton at h ⊢
  simp only at h ⊢
  cases hd : lib.parseDuration (s0.timeoutText ++ "s") with
  | error e => simp [hd] at h
  | ok t =>
    cases hp : parseInt lib s0.threadText 50 with
    | error e => simp [hd, hp] at h
    | ok n =>
      by_cases hn : n ≤ 0
      · simp [hd, hp, hn] at h
      · simp only [hd, hp, hn, if_false]
        refine ⟨⟨rfl, rfl, rfl, ?_, Nat.zero_le _, fun hc => by simp at hc, fun _ _ => rfl,
          ?_, ?_, ?_⟩, trivial⟩
        · intro k w hw
          simp at hw
        · intro j e he
          exact ⟨e, he, rfl, rfl⟩
        · intro p hp
          simp at hp
        · intro w hw
          simp at hw

theorem mem_of_mem_drop_of_agree {E0 l : List ProxyEntry} {K : Nat}
    (h : ∀ j : Nat, K ≤ j → l[j]? = E0[j]?) {x : ProxyEntry} (hx : x ∈ l.drop K) : x ∈ E0 := by
  obtain ⟨m, hm⟩ := List.getElem?_of_mem hx
  rw [List.getElem?_drop] at hm
  rw [h (K + m) (Nat.le_add_right _ _)] at hm
  exact List.getElem?_mem hm

/-- Runs in which no column header is clicked: take a store whose records are
all `Pending` with zero latency, start a run, and let the scheduler, the clock
and the stop button do what they will. At every moment, and so once the loop
has been left after `K` records were let in and all probes have settled: `K`
is where the loop stands, at most `K` records have a terminal status, at least
`N - K` records are still `Pending` with zero latency, every position from `K`
on holds exactly what was loaded, no goroutine has an index from `K` on, and
both partitions hold only copies of records at positions below `K`. -/
theorem cancel_leaves_rest_untouched (lib : Lib) (net : Int → World) (s0 : State)
    (sched : List Step)
    (hfresh : ∀ e ∈ s0.proxyList.entries, e.Status = "Pending" ∧ e.Latency = 0)
    (hstart : (startButton lib s0).2 = none) :
    (runFrom lib net sched s0).i = (runFrom lib net sched s0).workers.length ∧
    (runFrom lib net sched s0).workers.length ≤ s0.proxyList.entries.length ∧
    (runFrom lib net sched s0).proxyList.entries.length = s0.proxyList.entries.length ∧
    (runFrom lib net sched s0).proxyList.entries.countP terminal
      ≤ (runFrom lib net sched s0).workers.length ∧
    s0.proxyList.entries.length - (runFrom lib net sched s0).workers.length
      ≤ (runFrom lib net sched s0).proxyList.entries.countP untouched ∧
    (∀ j : Nat, (runFrom lib net sched s0).workers.length ≤ j →
      (runFrom lib net sched s0).proxyList.entries[j]? = s0.proxyList.entries[j]?) ∧
    (∀ w ∈ (runFrom lib net sched s0).workers,
      w.i < (runFrom lib net sched s0).workers.length) ∧
    (∀ p, p ∈ (runFrom lib net sched s0).goodProxies ∨
        p ∈ (runFrom lib net sched s0).badProxies →
      Launched s0.proxyList.entries (runFrom lib net sched s0).workers.length p) := by
  have hinv : RunInv s0.proxyList.entries (runFrom lib net sched s0) :=
    RunInv.exec net sched _ (RunInv.start lib s0 hstart).1
  generalize runFrom lib net sched s0 = s at hinv
  have hsplit := List.take_append_drop s.workers.length s.proxyList.entries
  have hdrop : ∀ x ∈ s.proxyList.entries.drop s.workers.length,
      x.Status = "Pending" ∧ x.Latency = 0 :=
    fun x hx => hfresh x (mem_of_mem_drop_of_agree hinv.beyond hx)
  refine ⟨hinv.wlen.symm, hinv.wlen ▸ hinv.bound, hinv.len, ?_, ?_, hinv.beyond, ?_,
    hinv.parts⟩
  · rw [← hsplit, List.countP_append]
    have h0 : (s.proxyList.entries.drop s.workers.length).countP terminal = 0 := by
      rw [List.countP_eq_zero]
      intro x hx
      simp [terminal, (hdrop x hx).1]
    have h1 : (s.proxyList.entries.take s.workers.length).countP terminal
        ≤ (s.proxyList.entries.take s.workers.length).length := List.countP_le_length _
    have h2 := List.length_take_le s.workers.length s.proxyList.entries
    omega
  · have h0 : (s.proxyList.entries.drop s.workers.length).countP untouched
        = (s.proxyList.entries.drop s.workers.length).length := by
      rw [List.countP_eq_length]
      intro x hx
      simp [untouched, (hdrop x hx).1, (hdrop x hx).2]
    have h1 : (s.proxyList.entries.drop s.workers.length).length
        = s0.proxyList.entries.length - s.workers.length := by
      rw [List.length_drop, hinv.len]
    calc s0.proxyList.entries.length - s.workers.length
        = (s.proxyList.entries.drop s.workers.length).countP untouched := by rw [h0, h1]
      _ ≤ (s.proxyList.entries.take s.workers.length).countP untouched
            + (s.proxyList.entries.drop s.workers.length).countP untouched :=
          Nat.le_add_left _ _
      _ = s.proxyList.entries.countP untouched := by
          rw [← List.countP_append, hsplit]
  · intro w hw
    obtain ⟨k, hk⟩ := List.getElem?_of_mem hw
    rw [hinv.widx k w hk]
    exact (List.getElem?_eq_some_iff.mp hk).1

/-! ## Theorems: the configuration checks of the start handler -/

/-- C5, as amended: a thread count text that is not empty and that `Sscanf`
rejects or scans to an integer below 1 makes the start handler show a
configuration error and return with everything but the stop flag as it was:
no probe is let in, and the store and both partitions are unchanged. -/
theorem invalid_threads_rejected (lib : Lib) (s : State) (hne : s.threadText ≠ "")
    (hbad : ∀ n, lib.sscanfInt s.threadText = .ok n → n < 1) :
    ((startButton lib s).2 = some "invalid timeout value" ∨
      (startButton lib s).2 = some "invalid thread count") ∧
    (startButton lib s).1 = { s with stopChecking := false } := by
  have hp : (∃ e, parseInt lib s.threadText 50 = .error e) ∨
      (∃ n, parseInt lib s.threadText 50 = .ok n ∧ n ≤ 0) := by
    unfold parseInt
    rw [if_neg hne]
    cases hs : lib.sscanfInt s.threadText with
    | error e => exact Or.inl ⟨e, rfl⟩
    | ok n => exact Or.inr ⟨n, rfl, by have := hbad n hs; omega⟩
  cases hd : lib.parseDuration (s.timeoutText ++ "s") with
  | error e => simp [startButton, hd]
  | ok t =>
    rcases hp with ⟨e, he⟩ | ⟨n, he, hn⟩
    · simp [startButton, hd, he]
    · simp [startButton, hd, he, hn]

/-- The timeout check of lines 248-252: a timeout text that `time.ParseDuration`
rejects (with the `s` appended) makes the start handler show a configuration
error and return with everything but the stop flag as it was; and when a run
starts, the text has parsed, to the duration the run uses. -/
theorem unparsable_timeout_rejected (lib : Lib) (s : State) :
    (∀ e, lib.parseDuration (s.timeoutText ++ "s") = .error e →
      (startButton lib s).2 = some "invalid timeout value" ∧
      (startButton lib s).1 = { s with stopChecking := false }) ∧
    ((startButton lib s).2 = none →
      lib.parseDuration (s.timeoutText ++ "s") = .ok (startButton lib s).1.timeout) := by
  constructor
  · intro e he
    simp [startButton, he]
  · intro h
    unfold startButton at h ⊢
    simp only at h ⊢
    cases hd : lib.parseDuration (s.timeoutText ++ "s") with
    | error e => simp [hd] at h
    | ok t =>
      cases hp : parseInt lib s.threadText 50 with
      | error e => simp [hd, hp] at h
      | ok n =>
        by_cases hn : n ≤ 0
        · simp [hd, hp, hn] at h
        · simp [hn]

/-! ## Concrete runs: witnesses and failing inputs -/

/-- Witness of C1: a proxy endpoint with a blank is classified `Invalid URL`,
the proxy that answers 200 with a body is `Success`, and the proxy that
answers 200 with an empty body is `Failed`. -/
theorem checkProxy_classification_witness :
    checkProxy demoWorld "bad addr" "HTTP" 5000000000 = "Invalid URL" ∧
    checkProxy demoWorld "1.1.1.1:8080" "HTTP" 5000000000 = "Success" ∧
    checkProxy demoWorld "3.3.3.3:80" "HTTP" 5000000000 = "Failed" :=
  ⟨(checkProxy_classification demoWorld "bad addr" "HTTP" 5000000000).1
      "invalid character in host name" rfl,
    ((checkProxy_classification demoWorld "1.1.1.1:8080" "HTTP" 5000000000).2
      ⟨"http://1.1.1.1:8080"⟩ rfl).1.mpr
      ⟨probeEndpoint, ⟨200, .ok [123, 125]⟩, [123, 125], rfl, rfl, rfl, rfl, by decide⟩,
    ((checkProxy_classification demoWorld "3.3.3.3:80" "HTTP" 5000000000).2
      ⟨"http://3.3.3.3:80"⟩ rfl).2 (by
        rintro ⟨req, resp, body, h1, h2, _, h4, h5⟩
        have hreq : req = probeEndpoint := by
          have : (Except.ok probeEndpoint : Except String String) = .ok req := h1
          exact (Except.ok.inj this).symm
        subst hreq
        have hresp : resp = ⟨200, .ok []⟩ := by
          have : (Except.ok ⟨200, .ok []⟩ : Except String Response) = .ok resp := h2
          exact (Except.ok.inj this).symm
        subst hresp
        exact h5 (Except.ok.inj h4).symm)⟩

/-- C2, failing run: two dead proxies, two threads, no stop. Both goroutines
evaluate `append(badProxies, ...)` before either stores its result; the run
completes, both records are `Failed`, and the two partitions together hold one
record instead of two. -/
theorem racing_appends_lose_a_record :
    (startButton refLib raceStore).2 = none ∧
    (runFrom refLib demoNet raceSchedule raceStore).threads = 2 ∧
    settled (runFrom refLib demoNet raceSchedule raceStore) = true ∧
    (runFrom refLib demoNet raceSchedule raceStore).panicked = false ∧
    (runFrom refLib demoNet raceSchedule raceStore).stopChecking = false ∧
    (runFrom refLib demoNet raceSchedule raceStore).i = 2 ∧
    (runFrom refLib demoNet raceSchedule raceStore).proxyList.entries.map (fun e => e.Status)
      = ["Failed", "Failed"] ∧
    (runFrom refLib demoNet raceSchedule raceStore).goodProxies = [] ∧
    (runFrom refLib demoNet raceSchedule raceStore).badProxies
      = [⟨"4.4.4.4:80", "HTTP", 0, "Failed"⟩] ∧
    (runFrom refLib demoNet raceSchedule raceStore).goodProxies.length +
      (runFrom refLib demoNet raceSchedule raceStore).badProxies.length ≠ 2 := by
  decide

/-- Witness of C3: with two threads and both probes let in, two probes are in
flight and the bound holds. -/
theorem concurrency_bound_witness :
    (startButton refLib raceStore).2 = none ∧
    executing (execUI demoNet insertionSort ((letIn ++ letIn ++ upToAppend 0).map Event.run)
      (startButton refLib raceStore).1) = 2 ∧
    inFlight (execUI demoNet insertionSort ((letIn ++ letIn ++ upToAppend 0).map Event.run)
      (startButton refLib raceStore).1) ≤ (startButton refLib raceStore).1.threads :=
  ⟨by decide, by decide,
    (concurrency_bound refLib demoNet insertionSort raceStore
      ((letIn ++ letIn ++ upToAppend 0).map Event.run) (by decide)).2.2.2.1⟩

/-- A stopped run without header clicks: three records, stop pressed after the
first was let in; the run settles with one goroutine, and the two other
records are as loaded. -/
theorem cancel_leaves_rest_untouched_witness :
    settled (runFrom refLib demoNet stopSchedule stopStore) = true ∧
    (runFrom refLib demoNet stopSchedule stopStore).stopChecking = true ∧
    (runFrom refLib demoNet stopSchedule stopStore).workers.length = 1 ∧
    (runFrom refLib demoNet stopSchedule stopStore).proxyList.entries.countP terminal
      ≤ (runFrom refLib demoNet stopSchedule stopStore).workers.length ∧
    stopStore.proxyList.entries.length - (runFrom refLib demoNet stopSchedule stopStore).workers.length
      ≤ (runFrom refLib demoNet stopSchedule stopStore).proxyList.entries.countP untouched :=
  ⟨by decide, by decide, by decide,
    (cancel_leaves_rest_untouched refLib demoNet stopStore stopSchedule (by decide)
      (by decide)).2.2.2.1,
    (cancel_leaves_rest_untouched refLib demoNet stopStore stopSchedule (by decide)
      (by decide)).2.2.2.2.1⟩

/-- C5, counterexample: the empty thread count text does not scan as an integer,
yet the start handler shows no error, takes 50 threads and lets a probe in. -/
theorem empty_thread_text_starts_run :
    refLib.sscanfInt "" = .error "unexpected EOF" ∧
    (startButton refLib (loaded "HTTP" ["1.1.1.1:8080"] "" "5")).2 = none ∧
    (startButton refLib (loaded "HTTP" ["1.1.1.1:8080"] "" "5")).1.threads = 50 ∧
    (runFrom refLib demoNet (letIn ++ upToAppend 0)
      (loaded "HTTP" ["1.1.1.1:8080"] "" "5")).workers.map (fun w => (w.i, w.status))
      = [(0, "Success")] :=
  ⟨rfl, by decide, by decide, by decide⟩

/-- Witness of C5 as amended: the thread count text `0` is rejected and the
state is as before. -/
theorem invalid_threads_rejected_witness :
    (startButton refLib (loaded "HTTP" ["1.1.1.1:8080"] "0" "5")).2
      = some "invalid thread count" ∧
    (startButton refLib (loaded "HTTP" ["1.1.1.1:8080"] "0" "5")).1
      = { loaded "HTTP" ["1.1.1.1:8080"] "0" "5" with stopChecking := false } :=
  ⟨by decide,
    (invalid_threads_rejected refLib (loaded "HTTP" ["1.1.1.1:8080"] "0" "5") (by decide)
      (by
        intro n hn
        have : (Except.ok 0 : Except String Int) = .ok n := hn
        rw [← Except.ok.inj this]
        decide)).2⟩

/-- C6, failing inputs: the timeout texts `0` and `-5` are not greater than
zero, yet the start handler shows no error, the run starts with the timeout 0
(or minus five seconds), and a probe is let in; the same text `-5` in the
thread count field is rejected by the sign check of line 255. -/
theorem nonpositive_timeout_starts_run :
    (startButton refLib (loaded "HTTP" ["1.1.1.1:8080"] "2" "0")).2 = none ∧
    (startButton refLib (loaded "HTTP" ["1.1.1.1:8080"] "2" "0")).1.timeout = 0 ∧
    (runFrom refLib demoNet (letIn ++ upToAppend 0)
      (loaded "HTTP" ["1.1.1.1:8080"] "2" "0")).workers.map (fun w => (w.i, w.status))
      = [(0, "Success")] ∧
    (startButton refLib (loaded "HTTP" ["1.1.1.1:8080"] "2" "-5")).2 = none ∧
    (startButton refLib (loaded "HTTP" ["1.1.1.1:8080"] "2" "-5")).1.timeout = -5000000000 ∧
    (startButton refLib (loaded "HTTP" ["1.1.1.1:8080"] "2" "-5")).1.pc = .loop ∧
    (runFrom refLib demoNet (letIn ++ upToAppend 0)
      (loaded "HTTP" ["1.1.1.1:8080"] "2" "-5")).workers.length = 1 ∧
    (startButton refLib (loaded "HTTP" ["1.1.1.1:8080"] "-5" "5")).2
      = some "invalid thread count" := by
  decide

/-- The timeout check at two texts: `abc` is rejected and the state is as
before; with the text `5` the run starts with five seconds. -/
theorem unparsable_timeout_rejected_witness :
    (startButton refLib (loaded "HTTP" ["1.1.1.1:8080"] "2" "abc")).2
      = some "invalid timeout value" ∧
    refLib.parseDuration ((loaded "HTTP" ["1.1.1.1:8080"] "2" "5").timeoutText ++ "s")
      = .ok (startButton refLib (loaded "HTTP" ["1.1.1.1:8080"] "2" "5")).1.timeout :=
  ⟨((unparsable_timeout_rejected refLib (loaded "HTTP" ["1.1.1.1:8080"] "2" "abc")).1
      "time: invalid duration abcs" rfl).1,
    (unparsable_timeout_rejected refLib (loaded "HTTP" ["1.1.1.1:8080"] "2" "5")).2
      (by decide)⟩

/-- Witness of C8: four records sorted by address, ascending, by the library's
insertion sort; the result has its addresses in order. -/
theorem sort_orders_by_column_witness :
    ∃ pl1, sortSort insertionSort
        ⟨[⟨"c", "HTTP", 3, "Pending"⟩, ⟨"a", "HTTP", 2, "Pending"⟩,
          ⟨"b", "HTTP", 1, "Pending"⟩, ⟨"a", "HTTP", 0, "Pending"⟩], 1, true⟩ = some pl1 ∧
      ∀ (i j : Nat) (hij : i < j) (hj : j < pl1.entries.length),
        KeyOrdered 1 true pl1.entries[i] pl1.entries[j] :=
  (sort_orders_by_column
    [⟨"c", "HTTP", 3, "Pending"⟩, ⟨"a", "HTTP", 2, "Pending"⟩, ⟨"b", "HTTP", 1, "Pending"⟩,
      ⟨"a", "HTTP", 0, "Pending"⟩] 1 true (by decide)).2

/-- C10, failing run: the probe of index 0 is made with the address
`1.1.1.1:8080`, which works; a click on the address header then sorts the
store, so that index 0 holds `9.9.9.9:1`, a dead proxy; the goroutine writes
`Success` at index 0 and appends that record to `goodProxies`. -/
theorem sort_during_run_misplaces_outcome :
    (startButton refLib sortStore).1.proxyList.entries.map (fun e => e.Address)
      = ["1.1.1.1:8080", "9.9.9.9:1"] ∧
    checkProxy demoWorld "1.1.1.1:8080" "HTTP" 5000000000 = "Success" ∧
    checkProxy demoWorld "9.9.9.9:1" "HTTP" 5000000000 = "Failed" ∧
    (execUI demoNet insertionSort (sortEvents.take 10) (startButton refLib sortStore).1).proxyList.entries
      = [⟨"9.9.9.9:1", "HTTP", 0, "Success"⟩, ⟨"1.1.1.1:8080", "HTTP", 0, "Pending"⟩] ∧
    (execUI demoNet insertionSort (sortEvents.take 11) (startButton refLib sortStore).1).goodProxies
      = [⟨"9.9.9.9:1", "HTTP", 0, "Success"⟩] ∧
    settled (execUI demoNet insertionSort sortEvents (startButton refLib sortStore).1) = true ∧
    (execUI demoNet insertionSort sortEvents (startButton refLib sortStore).1).goodProxies
      = [⟨"9.9.9.9:1", "HTTP", 0, "Success"⟩, ⟨"1.1.1.1:8080", "HTTP", 0, "Success"⟩] := by
  decide

/-- C4, failing run: two records as loaded, one thread; the first record is let
in and the stop button is pressed, so `K = 1` and `N - K = 1`. The goroutine
writes its latency at index 0, a click on the address header then sorts the
store, and the goroutine writes `Success` at index 0, which now holds the
record loaded at index 1. The run settles with the stop flag set and the loop
left at index 1, yet no record is `Pending` with zero latency, and the record
loaded at index 1, which was never let in, is in `goodProxies`. -/
theorem sort_during_cancelled_run_touches_rest :
    (startButton refLib cancelStore).2 = none ∧
    (startButton refLib cancelStore).1.proxyList.entries
      = [⟨"1.1.1.1:8080", "HTTP", 0, "Pending"⟩, ⟨"9.9.9.9:1", "HTTP", 0, "Pending"⟩] ∧
    settled (execUI demoNet insertionSort cancelSortEvents (startButton refLib cancelStore).1)
      = true ∧
    (execUI demoNet insertionSort cancelSortEvents (startButton refLib cancelStore).1).panicked
      = false ∧
    (execUI demoNet insertionSort cancelSortEvents (startButton refLib cancelStore).1).stopChecking
      = true ∧
    (execUI demoNet insertionSort cancelSortEvents (startButton refLib cancelStore).1).i = 1 ∧
    (execUI demoNet insertionSort cancelSortEvents (startButton refLib cancelStore).1).workers.map
      (fun w => w.i) = [0] ∧
    (execUI demoNet insertionSort cancelSortEvents (startButton refLib cancelStore).1).proxyList.entries
      = [⟨"9.9.9.9:1", "HTTP", 0, "Success"⟩, ⟨"1.1.1.1:8080", "HTTP", 7, "Pending"⟩] ∧
    (execUI demoNet insertionSort cancelSortEvents
      (startButton refLib cancelStore).1).proxyList.entries.countP untouched = 0 ∧
    (execUI demoNet insertionSort cancelSortEvents (startButton refLib cancelStore).1).goodProxies
      = [⟨"9.9.9.9:1", "HTTP", 0, "Success"⟩] := by
  decide

end ProxyChecker
